import Mathlib

set_option maxRecDepth 16000

/- The Batteries rational operations are marked irreducible, which blocks
`decide` on concrete rational computations; reducibility is irrelevant to
kernel checking, so reset it locally for this development. -/
set_option allowUnsafeReducibility true
attribute [local semireducible] Rat.add Rat.mul Rat.inv Rat.sub Rat.ofScientific

/-!
Shallow embedding of the normalization-and-derivation pipeline of
`dashboard.py` (options-market dashboard): FieldNormalizer (cell cleaning),
TableCleaner (per-dataset column cleaning plus critical-column row drops),
and MetricsEngine (put/call ratios, exposure-by-strike aggregation,
highlighted-trade filter, grouped premium sums).

Numeric cells are modelled as exact rationals (`ℚ`); pandas missing values
(`NaN` / `pd.NA`) are the `missing` constructor of `RawCell`, and fallible
numeric coercion returns `Option ℚ`.
-/

namespace Dashboard

/-- A raw cell of a loaded table: a string, a number, or a missing value
(`NaN` / `pd.NA`). -/
inductive RawCell where
  | str (s : String)
  | num (q : ℚ)
  | missing
deriving DecidableEq

/-- The placeholder token set replaced by missing before numeric parsing:
`['unch', 'N/A', '']` (source: the `.replace(['unch', 'N/A', ''], …)` calls). -/
def isPlaceholder (s : String) : Bool :=
  decide (s = "unch") || decide (s = "N/A") || decide (s = "")

/-- `series.replace(['unch', 'N/A', ''], nan)` acting on one cell: an exact
match with a placeholder token becomes missing; everything else is kept. -/
def replacePlaceholders : RawCell → RawCell
  | .str s => if isPlaceholder s then .missing else .str s
  | c => c

/-- Value of a digit string, most significant first. -/
def digitsVal (cs : List Char) : ℕ :=
  cs.foldl (fun n c => 10 * n + (c.toNat - 48)) 0

/-- Unsigned decimal literal: digits, optionally split by one dot, with at
least one digit present.  Models the literal fragment of Python float
parsing used by `pd.to_numeric` on the cell encodings of this dataset. -/
def parseUnsigned (cs : List Char) : Option ℚ :=
  match cs.span (fun c => !decide (c = '.')) with
  | (a, []) =>
    if a.isEmpty then none
    else if a.all Char.isDigit then some (digitsVal a) else none
  | (a, _ :: b) =>
    if b.contains '.' then none
    else if a.isEmpty && b.isEmpty then none
    else if a.all Char.isDigit && b.all Char.isDigit then
      some ((digitsVal a : ℚ) + (digitsVal b : ℚ) / (10 : ℚ) ^ b.length)
    else none

/-- Signed decimal literal: one optional leading sign before the digits. -/
def parseSigned : List Char → Option ℚ
  | '-' :: t => (parseUnsigned t).map (fun q => -q)
  | '+' :: t => parseUnsigned t
  | t => parseUnsigned t

/-- Drop leading and trailing space characters, as Python float parsing does. -/
def trimSpaces (cs : List Char) : List Char :=
  ((cs.dropWhile (fun c => decide (c = ' '))).reverse.dropWhile (fun c => decide (c = ' '))).reverse

/-- `pd.to_numeric(s, errors='coerce')` on a string cell: parse a decimal
literal, yielding `none` (pandas `NaN`) on failure. -/
def toNumeric (s : String) : Option ℚ :=
  parseSigned (trimSpaces s.data)

/-- `s.endswith('%')`. -/
def endsWithPercent (s : String) : Bool :=
  match s.data.reverse with
  | [] => false
  | c :: _ => decide (c = '%')

/-- `s.rstrip('%')`: removes the whole run of trailing `%` characters. -/
def rstripPercent (s : String) : String :=
  String.mk ((s.data.reverse.dropWhile (fun c => decide (c = '%'))).reverse)

/-- `s.replace('+', '')`: removes every `+` character, at any position. -/
def removePlusChars (s : String) : String :=
  String.mk (s.data.filter (fun c => !decide (c = '+')))

/-- Removing the last character — used only by the spec-worded variant that
strips a single trailing `%`. -/
def dropLastChar (s : String) : String :=
  String.mk s.data.dropLast

/-- `pd.to_numeric(cell, errors='coerce')` on a cell that has already had
placeholders replaced: numbers pass through, strings are parsed, missing
stays missing. -/
def coerceCell : RawCell → Option ℚ
  | .missing => none
  | .num q => some q
  | .str s => toNumeric s

/-- PlainNumeric column normalization (source: `replace` then
`pd.to_numeric(…, errors='coerce')`). -/
def normPlain (c : RawCell) : Option ℚ :=
  coerceCell (replacePlaceholders c)

/-- `clean_iv` from the chain tab (dashboard.py lines 70–77): missing stays
missing; a string ending in `%` has its trailing `%` run stripped
(`rstrip('%')`), is parsed, and divided by 100; any other value is parsed
and still divided by 100.  A numeric cell `q` goes through `str(q)`, which
has no trailing `%` and parses back to `q` exactly, so it maps to `q / 100`. -/
def clean_iv : RawCell → Option ℚ
  | .missing => none
  | .num q => some (q / 100)
  | .str s =>
    if endsWithPercent s then (toNumeric (rstripPercent s)).map (· / 100)
    else (toNumeric s).map (· / 100)

/-- `clean_moneyness` from the chain tab (dashboard.py lines 83–91): missing
stays missing; otherwise every `+` character is removed
(`str(val).replace('+', '')`); if the result ends in `%` the trailing `%`
run is stripped, the remainder parsed and divided by 100; otherwise the
value is parsed directly and NOT divided by 100.  A numeric cell `q` has no
`+` or `%` in `str(q)` and maps to `q` unchanged. -/
def clean_moneyness : RawCell → Option ℚ
  | .missing => none
  | .num q => some q
  | .str s =>
    let s2 := removePlusChars s
    if endsWithPercent s2 then (toNumeric (rstripPercent s2)).map (· / 100)
    else toNumeric s2

/-- Chain-tab IV normalization: placeholder replacement followed by
`clean_iv` (dashboard.py lines 67 and 77). -/
def normIV (c : RawCell) : Option ℚ :=
  clean_iv (replacePlaceholders c)

/-- Chain-tab Moneyness normalization: placeholder replacement followed by
`clean_moneyness` (dashboard.py lines 82 and 92). -/
def normMoneyness (c : RawCell) : Option ℚ :=
  clean_moneyness (replacePlaceholders c)

/-- Percent-column normalization of the greeks and flow loops (dashboard.py
lines 206 and 308): placeholder replacement, `astype(str)`,
`str.rstrip('%')`, `pd.to_numeric(…, errors='coerce')`, division by 100.
`astype(str)` maps a replaced `pd.NA` to the unparsable text `<NA>`, hence
missing; a numeric `q` prints without `%` and parses back exactly to `q`. -/
def normPercent (c : RawCell) : Option ℚ :=
  match replacePlaceholders c with
  | .missing => none
  | .num q => some (q / 100)
  | .str s => (toNumeric (rstripPercent s)).map (· / 100)

/-- Modelled from the spec (claim wording for `Percentage`): strip a single
trailing `%` if present, parse the remainder as a decimal, divide by 100;
without `%` still divide by 100. -/
def specPercentageStr (s : String) : Option ℚ :=
  let t := if endsWithPercent s then dropLastChar s else s
  (toNumeric t).map (· / 100)

/-- Modelled from the spec, amended: strip the whole run of trailing `%`
characters, parse the remainder as a decimal, divide by 100 whether or not
a `%` was present. -/
def specPercentageAllStr (s : String) : Option ℚ :=
  (toNumeric (rstripPercent s)).map (· / 100)

/-- Modelled from the spec (claim wording for `SignedPercentage`): strip a
single leading `+`, then behave exactly like the claimed `Percentage` rule,
dividing by 100 with or without a trailing `%`. -/
def specSignedPercentageStr (s : String) : Option ℚ :=
  let t := match s.data with
    | '+' :: rest => String.mk rest
    | _ => s
  specPercentageStr t

/-- Modelled from the spec, amended to the source behavior: remove every
`+` character (a leading `-` is preserved and parsed as negative); when a
trailing `%` is present strip the `%` run and divide the parsed value by
100; when no `%` is present return the parsed value undivided. -/
def specSignedAmendedStr (s : String) : Option ℚ :=
  let t := String.mk (s.data.filter (fun c => !decide (c = '+')))
  if endsWithPercent t then (toNumeric (rstripPercent t)).map (· / 100)
  else toNumeric t

/-- Rebuilding a string from its character list is the identity. -/
theorem string_mk_data (s : String) : String.mk s.data = s := rfl

/-- A string that does not end in `%` is unchanged by `rstrip('%')`. -/
theorem rstripPercent_of_not_endsWith (s : String) (h : endsWithPercent s = false) :
    rstripPercent s = s := by
  unfold rstripPercent
  unfold endsWithPercent at h
  cases hr : s.data.reverse with
  | nil =>
    have hd : s.data = [] := by
      have h2 := congrArg List.reverse hr
      simpa using h2
    simp only [List.dropWhile_nil, List.reverse_nil]
    conv_rhs => rw [← string_mk_data s]
    rw [hd]
  | cons c t =>
    rw [hr] at h
    have hc : decide (c = '%') = false := by simpa using h
    have hdata : s.data = (c :: t).reverse := by
      rw [← List.reverse_reverse s.data, hr]
    rw [List.dropWhile_cons, hc]
    simp only [Bool.false_eq_true, if_false]
    conv_rhs => rw [← string_mk_data s]
    rw [hdata]

/-- The three placeholder tokens spelled out. -/
theorem isPlaceholder_iff (s : String) :
    isPlaceholder s = true ↔ s = "unch" ∨ s = "N/A" ∨ s = "" := by
  unfold isPlaceholder
  simp [Bool.or_eq_true, decide_eq_true_iff, or_assoc]

/-- C1 counterexample: the claim says a single trailing `%` is stripped, so
the cell `"75.37%%"` would have one `%` removed and `"75.37%"` would then
fail to parse (missing); the source's `rstrip('%')` removes the whole run of
trailing `%` and yields `0.7537`. -/
theorem c1_counterexample :
    normIV (RawCell.str "75.37%%") ≠ specPercentageStr "75.37%%" := by
  decide

/-- C1 (amended): for every `Percentage` cell, normalization strips the whole
run of trailing `%` characters (not just a single one), parses the remainder
as a decimal and divides by 100; without a `%` the parsed value is still
divided by 100.  The chain-tab `clean_iv` (after placeholder replacement)
and the greeks/flow percent loop compute the same function, and `"75.37%"`
and `"75.37"` both normalize to `0.7537`. -/
theorem c1_theorem :
    (∀ s : String, normIV (.str s) = specPercentageAllStr s) ∧
    (∀ c : RawCell, normPercent c = normIV c) ∧
    (∀ q : ℚ, normIV (.num q) = some (q / 100)) ∧
    normIV (.str "75.37%") = some (7537 / 10000) ∧
    normIV (.str "75.37") = some (7537 / 10000) := by
  have key : ∀ s : String, isPlaceholder s = false →
      clean_iv (RawCell.str s) = specPercentageAllStr s := by
    intro s hp
    simp only [clean_iv, specPercentageAllStr]
    by_cases he : endsWithPercent s = true
    · rw [if_pos he]
    · have he2 : endsWithPercent s = false := by simpa using he
      rw [if_neg he, rstripPercent_of_not_endsWith s he2]
  refine ⟨?_, ?_, fun q => rfl, by decide, by decide⟩
  · intro s
    by_cases hp : isPlaceholder s = true
    · rcases (isPlaceholder_iff s).mp hp with h | h | h <;> subst h <;> decide
    · have hp2 : isPlaceholder s = false := by simpa using hp
      simp only [normIV, replacePlaceholders, hp2, Bool.false_eq_true, if_false]
      exact key s hp2
  · intro c
    cases c with
    | missing => rfl
    | num q => rfl
    | str s =>
      by_cases hp : isPlaceholder s = true
      · simp only [normPercent, normIV, replacePlaceholders, hp, if_true]
        rfl
      · have hp2 : isPlaceholder s = false := by simpa using hp
        simp only [normPercent, normIV, replacePlaceholders, hp2, Bool.false_eq_true, if_false]
        rw [key s hp2]
        rfl

/-- C2 counterexample: the claim says a bare `"75.37"` (no `%`) is still
divided by 100, but `clean_moneyness` only divides when a trailing `%` is
present and returns `75.37` unscaled here. -/
theorem c2_counterexample :
    normMoneyness (RawCell.str "75.37") ≠ specSignedPercentageStr "75.37" := by
  decide

/-- C2 (amended): `SignedPercentage` normalization removes every `+`
character (a leading `-` is preserved and parsed as negative); when a
trailing `%` is present, the `%` run is stripped and the parsed value is
divided by 100; without a `%` the parsed value is returned UNdivided.  So
`"+15.62%"` gives `0.1562`, `"-3.2%"` gives `-0.032`, and a bare `"75.37"`
gives `75.37` (not `0.7537`). -/
theorem c2_theorem :
    (∀ s : String, normMoneyness (.str s) = specSignedAmendedStr s) ∧
    (∀ q : ℚ, normMoneyness (.num q) = some q) ∧
    normMoneyness (.str "+15.62%") = some (1562 / 10000) ∧
    normMoneyness (.str "-3.2%") = some (-(32 / 1000)) ∧
    normMoneyness (.str "75.37") = some (7537 / 100) := by
  refine ⟨?_, fun q => rfl, by decide, by decide, by decide⟩
  intro s
  by_cases hp : isPlaceholder s = true
  · rcases (isPlaceholder_iff s).mp hp with h | h | h <;> subst h <;> decide
  · have hp2 : isPlaceholder s = false := by simpa using hp
    simp only [normMoneyness, replacePlaceholders, hp2, Bool.false_eq_true, if_false]
    rfl

/-- A pandas column has object dtype exactly when it holds string cells
(a CSV column that fully parses as numbers is loaded with a numeric dtype).
The `replace` call preserves the dtype, so the `df_inusual[col].dtype ==
'object'` test of line 310 is a test on the original cells. -/
def columnIsObject (col : List RawCell) : Bool :=
  col.any (fun c => match c with | .str _ => true | _ => false)

/-- One cell of the object-dtype Delta branch (dashboard.py line 311):
`astype(str)`, `str.rstrip('%')`, `pd.to_numeric(…, errors='coerce')`.
A replaced `pd.NA` prints as `<NA>` and fails the parse; a numeric cell
prints without `%` and parses back exactly. -/
def parseDeltaCellObject : RawCell → Option ℚ
  | .missing => none
  | .num q => some q
  | .str s => toNumeric (rstripPercent s)

/-- `(series.abs() > 5).any()` (dashboard.py line 313): missing entries
compare as false. -/
def hasLargeMagnitude (xs : List (Option ℚ)) : Bool :=
  xs.any (fun o => match o with | some q => decide (5 < |q|) | none => false)

/-- `series / 100.0`: missing stays missing. -/
def scaleDown (xs : List (Option ℚ)) : List (Option ℚ) :=
  xs.map (Option.map (· / 100))

/-- The flow tab's Delta column cleaning (dashboard.py lines 306–316):
placeholders are replaced; if the column has object dtype it is parsed with
trailing-`%` stripping and, when any parsed magnitude exceeds 5, the whole
column is divided by 100; an already-numeric column is coerced without the
magnitude heuristic. -/
def cleanDeltaColumn (col : List RawCell) : List (Option ℚ) :=
  let replaced := col.map replacePlaceholders
  if columnIsObject col then
    let parsed := replaced.map parseDeltaCellObject
    if hasLargeMagnitude parsed then scaleDown parsed else parsed
  else
    replaced.map coerceCell

/-- Modelled from the spec (claim wording for `AmbiguousMagnitude`): parse
every cell as `PlainNumeric`; after the whole column is parsed, if any
value's absolute magnitude exceeds 5, scale the entire column by 1/100 —
with no condition on how the column was encoded. -/
def specAmbiguousColumn (col : List RawCell) : List (Option ℚ) :=
  let parsed := col.map normPlain
  if hasLargeMagnitude parsed then scaleDown parsed else parsed

/-- `cleanDeltaColumn` keeps the column length. -/
theorem cleanDeltaColumn_length (col : List RawCell) :
    (cleanDeltaColumn col).length = col.length := by
  simp only [cleanDeltaColumn]
  by_cases h1 : columnIsObject col = true
  · rw [if_pos h1]
    by_cases h2 : hasLargeMagnitude (List.map parseDeltaCellObject (List.map replacePlaceholders col)) = true
    · rw [if_pos h2]
      simp only [scaleDown, List.length_map]
    · rw [if_neg h2]
      simp only [List.length_map]
  · rw [if_neg h1]
    simp only [List.length_map]

/-- C3 counterexample: a Delta column that arrives as numbers
`[0.15, 0.32, 45]` (numeric dtype) is passed through unscaled by the code,
while the claim's column-level rule would divide every value by 100 because
`45 > 5`. -/
theorem c3_counterexample :
    cleanDeltaColumn [RawCell.num (15 / 100), RawCell.num (32 / 100), RawCell.num 45]
      ≠ specAmbiguousColumn [RawCell.num (15 / 100), RawCell.num (32 / 100), RawCell.num 45] := by
  decide

/-- C3 (amended): the magnitude heuristic is applied only when the Delta
column holds strings (pandas object dtype): such a column is parsed with
trailing-`%` stripping and, if any parsed absolute value exceeds 5, every
value of the entire column is divided by 100 (a column-level decision, never
per cell).  A column that is already numeric is coerced without the
heuristic.  The string column `["0.15", "0.32", "45"]` normalizes to
`[0.0015, 0.0032, 0.45]`. -/
theorem c3_theorem :
    (∀ col : List RawCell, columnIsObject col = false →
      cleanDeltaColumn col = col.map normPlain) ∧
    (∀ col : List RawCell, columnIsObject col = true →
      cleanDeltaColumn col =
        (if hasLargeMagnitude ((col.map replacePlaceholders).map parseDeltaCellObject)
         then scaleDown ((col.map replacePlaceholders).map parseDeltaCellObject)
         else (col.map replacePlaceholders).map parseDeltaCellObject)) ∧
    cleanDeltaColumn [RawCell.str "0.15", RawCell.str "0.32", RawCell.str "45"]
      = [some (15 / 10000), some (32 / 10000), some (45 / 100)] ∧
    specAmbiguousColumn [RawCell.num (15 / 100), RawCell.num (32 / 100), RawCell.num 45]
      = [some (15 / 10000), some (32 / 10000), some (45 / 100)] := by
  refine ⟨?_, ?_, by decide, by decide⟩
  · intro col h
    simp only [cleanDeltaColumn, h, Bool.false_eq_true, if_false]
    rw [List.map_map]
    rfl
  · intro col h
    simp only [cleanDeltaColumn, h, if_true]

/-- C3 witness: the two universal parts of the amended theorem applied to
the concrete numeric column `[45]` and string column `["45"]`. -/
theorem c3_witness :
    cleanDeltaColumn [RawCell.num 45] = [RawCell.num 45].map normPlain ∧
    cleanDeltaColumn [RawCell.str "45"] =
      (if hasLargeMagnitude (([RawCell.str "45"].map replacePlaceholders).map parseDeltaCellObject)
       then scaleDown (([RawCell.str "45"].map replacePlaceholders).map parseDeltaCellObject)
       else ([RawCell.str "45"].map replacePlaceholders).map parseDeltaCellObject) :=
  ⟨c3_theorem.1 [RawCell.num 45] (by decide), c3_theorem.2.1 [RawCell.str "45"] (by decide)⟩

/-! ## TableCleaner: the greeks and flow datasets -/

/-- One raw row of Griegas.csv restricted to the eleven declared columns
(dashboard.py lines 196–200). -/
structure GRow where
  (iv itmProb delta gamma theta vega strike bid ask volume openInt : RawCell)
deriving DecidableEq

/-- A normalized greeks row. -/
structure GRowN where
  (iv itmProb delta gamma theta vega strike bid ask volume openInt : Option ℚ)
deriving DecidableEq

/-- The greeks cleaning loop applied to one row: IV and ITM Prob are percent
columns, the rest are plain numeric (dashboard.py lines 202–208). -/
def normGRow (r : GRow) : GRowN :=
  ⟨normPercent r.iv, normPercent r.itmProb, normPlain r.delta, normPlain r.gamma,
   normPlain r.theta, normPlain r.vega, normPlain r.strike, normPlain r.bid,
   normPlain r.ask, normPlain r.volume, normPlain r.openInt⟩

/-- The greeks `dropna` subset: all eleven declared columns must be
non-missing (dashboard.py lines 212–213). -/
def gCritical (r : GRowN) : Bool :=
  r.iv.isSome && r.itmProb.isSome && r.delta.isSome && r.gamma.isSome &&
  r.theta.isSome && r.vega.isSome && r.strike.isSome && r.bid.isSome &&
  r.ask.isSome && r.volume.isSome && r.openInt.isSome

/-- The greeks TableCleaner: normalize every declared column, then drop the
rows with a missing critical value, keeping the order of the survivors. -/
def cleanGriegas (rows : List GRow) : List GRowN :=
  (rows.map normGRow).filter gCritical

/-- One raw row of Inusual.csv restricted to the ten declared numeric
columns (dashboard.py lines 298–302); `Price~` is `price`, `Trade` is
`trade`. -/
structure FRow where
  (iv delta price strike dte trade size premium volume openInt : RawCell)
deriving DecidableEq

/-- A normalized flow row. -/
structure FRowN where
  (iv delta price strike dte trade size premium volume openInt : Option ℚ)
deriving DecidableEq

/-- The flow cleaning loop (dashboard.py lines 304–318): IV is a percent
column, Delta is the ambiguous-magnitude column cleaned column-wise, the
rest are plain numeric. -/
def normalizedInusual (rows : List FRow) : List FRowN :=
  List.zipWith
    (fun r d =>
      ⟨normPercent r.iv, d, normPlain r.price, normPlain r.strike, normPlain r.dte,
       normPlain r.trade, normPlain r.size, normPlain r.premium, normPlain r.volume,
       normPlain r.openInt⟩)
    rows (cleanDeltaColumn (rows.map (fun r => r.delta)))

/-- The flow critical columns: Premium, Size, Volume, Open Int, Strike, IV,
Delta (dashboard.py line 324). -/
def fCritical (r : FRowN) : Bool :=
  r.premium.isSome && r.size.isSome && r.volume.isSome && r.openInt.isSome &&
  r.strike.isSome && r.iv.isSome && r.delta.isSome

/-- The flow TableCleaner: normalize, then drop rows with a missing critical
value (dashboard.py line 325). -/
def cleanInusual (rows : List FRow) : List FRowN :=
  (normalizedInusual rows).filter fCritical

/-- C4: for the two table cleaners that produce output, every surviving row
has every critical column non-missing, the output row count is at most the
input row count, and the survivors appear as a sublist (hence in input
order) of the normalized input rows.  (The chain tab's cleaner raises before
its `dropna`; see the C5 theorem.) -/
theorem c4_theorem :
    (∀ rows : List GRow,
      (∀ r ∈ cleanGriegas rows, gCritical r = true) ∧
      (cleanGriegas rows).length ≤ rows.length ∧
      List.Sublist (cleanGriegas rows) (rows.map normGRow)) ∧
    (∀ rows : List FRow,
      (∀ r ∈ cleanInusual rows, fCritical r = true) ∧
      (cleanInusual rows).length ≤ rows.length ∧
      List.Sublist (cleanInusual rows) (normalizedInusual rows)) := by
  constructor
  · intro rows
    refine ⟨fun r hr => List.of_mem_filter hr, ?_, List.filter_sublist _⟩
    calc (cleanGriegas rows).length ≤ (rows.map normGRow).length :=
          List.length_filter_le _ _
      _ = rows.length := List.length_map _ _
  · intro rows
    have hlen : (normalizedInusual rows).length = rows.length := by
      unfold normalizedInusual
      rw [List.length_zipWith, cleanDeltaColumn_length, List.length_map, min_self]
    refine ⟨fun r hr => List.of_mem_filter hr, ?_, List.filter_sublist _⟩
    calc (cleanInusual rows).length ≤ (normalizedInusual rows).length :=
          List.length_filter_le _ _
      _ = rows.length := hlen

/-- A sample raw greeks row whose eleven cells are all numeric. -/
def gExample : GRow :=
  ⟨.num (7537 / 100), .num 50, .num 1, .num 1, .num 1, .num 1, .num 100,
   .num 1, .num 1, .num 10, .num 5⟩

/-- A sample raw flow row with a percent IV string and a string Delta. -/
def fExample : FRow :=
  ⟨.str "30%", .str "0.5", .num 1, .num 100, .num 10, .num 1, .num 5,
   .num 1000, .num 10, .num 3⟩

/-- The normalized form of `fExample`. -/
def fNExample : FRowN :=
  ⟨some (3 / 10), some (1 / 2), some 1, some 100, some 10, some 1, some 5,
   some 1000, some 10, some 3⟩

/-- C4 witness: the two membership hypotheses of the C4 theorem discharged
on concrete one-row tables. -/
theorem c4_witness :
    gCritical (normGRow gExample) = true ∧ fCritical fNExample = true :=
  ⟨(c4_theorem.1 [gExample]).1 (normGRow gExample) (by decide),
   (c4_theorem.2 [fExample]).1 fNExample (by decide)⟩

/-! ## The chain tab cannot clean: `np` is undefined -/

/-- A fatal Python error. -/
inductive PyError where
  | nameError (missingName : String)
deriving DecidableEq

/-- Evaluation of the expression `np.nan` in dashboard.py: the module
imports only streamlit, pandas and plotly — numpy is never imported — so
the name `np` is unbound and evaluating `np.nan` raises
`NameError: name 'np' is not defined`. -/
def npNanExpr : Except PyError RawCell := .error (.nameError "np")

/-- One raw row of CADENA.csv restricted to the ten declared numeric
columns (dashboard.py lines 66–99). -/
structure CRow where
  (iv moneyness delta strike bid mid ask last volume openInt : RawCell)
deriving DecidableEq

/-- A normalized chain row. -/
structure CRowN where
  (iv moneyness delta strike bid mid ask last volume openInt : Option ℚ)
deriving DecidableEq

/-- The chain `dropna` subset: IV, Delta, Moneyness, Strike, Volume,
Open Int (dashboard.py line 103). -/
def cCritical (r : CRowN) : Bool :=
  r.iv.isSome && r.delta.isSome && r.moneyness.isSome && r.strike.isSome &&
  r.volume.isSome && r.openInt.isSome

/-- The chain tab cleaning (dashboard.py lines 61–104).  The whole block is
guarded by `if not df_cadena.empty`; on a non-empty table its very first
statement, `df_cadena['IV'].replace(['unch', 'N/A', ''], np.nan)`, must
evaluate `np.nan`, which raises `NameError` (numpy is never imported), so
the rest of the cleaning — `clean_iv`, `clean_moneyness`, the plain-numeric
loop and the `dropna` — is unreachable. -/
def cleanCadena (rows : List CRow) : Except PyError (List CRowN) :=
  if rows.isEmpty then .ok []
  else
    match npNanExpr with
    | .error e => .error e
    | .ok _ =>
      .ok ((rows.map (fun r =>
        (⟨normIV r.iv, normMoneyness r.moneyness, normPlain r.delta,
          normPlain r.strike, normPlain r.bid, normPlain r.mid,
          normPlain r.ask, normPlain r.last, normPlain r.volume,
          normPlain r.openInt⟩ : CRowN))).filter cCritical)

/-- A one-row chain table with an ordinary percent IV cell. -/
def cExample : CRow :=
  ⟨.str "75.37%", .str "+1.5%", .num 1, .num 100, .num 1, .num 1, .num 1,
   .num 1, .num 10, .num 5⟩

/-- C5: cleaning the non-empty chain table raises `NameError: name 'np' is
not defined` instead of degrading the failing cells to missing — numpy is
used (lines 67, 82, 98) but never imported.  Only the empty table, which
skips the guarded block, survives cleaning. -/
theorem c5_theorem :
    cleanCadena [cExample] = .error (.nameError "np") ∧
    cleanCadena [] = .ok [] :=
  ⟨rfl, rfl⟩

/-! ## Idempotence of cleaning fails on the percent columns -/

/-- Writing a normalized value back as a raw cell: a cleaned float column
re-entering the cleaner. -/
def rerawCell : Option ℚ → RawCell
  | some q => .num q
  | none => .missing

/-- A whole cleaned greeks row written back as raw cells. -/
def rerawG (r : GRowN) : GRow :=
  ⟨rerawCell r.iv, rerawCell r.itmProb, rerawCell r.delta, rerawCell r.gamma,
   rerawCell r.theta, rerawCell r.vega, rerawCell r.strike, rerawCell r.bid,
   rerawCell r.ask, rerawCell r.volume, rerawCell r.openInt⟩

/-- Dividing the two percent columns of a normalized row by a further 100. -/
def divPercentG (r : GRowN) : GRowN :=
  { r with iv := r.iv.map (· / 100), itmProb := r.itmProb.map (· / 100) }

/-- Re-cleaning a fully non-missing normalized row divides the percent
columns by another 100 and keeps every column non-missing. -/
theorem normGRow_rerawG (r : GRowN) (h : gCritical r = true) :
    normGRow (rerawG r) = divPercentG r ∧ gCritical (divPercentG r) = true := by
  obtain ⟨iv, itm, de, ga, th, ve, st, bi, ak, vo, oi⟩ := r
  rcases iv with _ | q1
  · simp [gCritical] at h
  rcases itm with _ | q2
  · simp [gCritical] at h
  rcases de with _ | q3
  · simp [gCritical] at h
  rcases ga with _ | q4
  · simp [gCritical] at h
  rcases th with _ | q5
  · simp [gCritical] at h
  rcases ve with _ | q6
  · simp [gCritical] at h
  rcases st with _ | q7
  · simp [gCritical] at h
  rcases bi with _ | q8
  · simp [gCritical] at h
  rcases ak with _ | q9
  · simp [gCritical] at h
  rcases vo with _ | q10
  · simp [gCritical] at h
  rcases oi with _ | q11
  · simp [gCritical] at h
  exact ⟨rfl, rfl⟩

/-- Re-cleaning a list of fully non-missing normalized rows keeps every row
and divides the percent columns by another 100. -/
theorem cleanGriegas_reclean (l : List GRowN) (h : ∀ r ∈ l, gCritical r = true) :
    cleanGriegas (l.map rerawG) = l.map divPercentG := by
  induction l with
  | nil => rfl
  | cons r t ih =>
    have hr := h r (List.mem_cons_self r t)
    have ht : ∀ x ∈ t, gCritical x = true := fun x hx => h x (List.mem_cons_of_mem r hx)
    obtain ⟨heq, hcrit⟩ := normGRow_rerawG r hr
    have ih2 := ih ht
    simp only [cleanGriegas, List.map_cons, List.filter_cons, heq, hcrit, if_true] at *
    rw [ih2]

/-- C9 counterexample: one all-numeric (already "clean") greeks row with
IV `75.37`; the first clean yields IV `0.7537`, and cleaning that output
again yields IV `0.007537`, so the second clean does not reproduce the
first. -/
theorem c9_counterexample :
    cleanGriegas ((cleanGriegas [gExample]).map rerawG) ≠ cleanGriegas [gExample] := by
  decide

/-- C9 (amended): the greeks cleaner is not idempotent — re-cleaning a
cleaned table keeps every row and every plain-numeric column unchanged, but
divides each `Percentage` column (IV, ITM Prob) by a further factor of 100,
because the pre-scaled-percentage rule divides by 100 even when no `%` is
present. -/
theorem c9_theorem : ∀ rows : List GRow,
    cleanGriegas ((cleanGriegas rows).map rerawG) = (cleanGriegas rows).map divPercentG :=
  fun rows => cleanGriegas_reclean (cleanGriegas rows) (fun _ hr => List.of_mem_filter hr)

/-! ## MetricsEngine: put/call ratio (dashboard.py lines 157–168) -/

/-- A cleaned chain row as used by the ratio block: the `Type` column (a
string the cleaner never touches) plus the numeric Volume and Open Int. -/
structure ChainRowC where
  (otype : String)
  (volume openInt : ℚ)
deriving DecidableEq

/-- Sum of a measure over the `Type == 'Call'` rows. -/
def callSideSum (rows : List ChainRowC) (m : ChainRowC → ℚ) : ℚ :=
  ((rows.filter (fun r => decide (r.otype = "Call"))).map m).sum

/-- Sum of a measure over the `Type == 'Put'` rows. -/
def putSideSum (rows : List ChainRowC) (m : ChainRowC → ℚ) : ℚ :=
  ((rows.filter (fun r => decide (r.otype = "Put"))).map m).sum

/-- `puts / calls if calls > 0 else 0` (dashboard.py lines 164 and 168):
note the guard is `> 0`, not `== 0`. -/
def pc_ratio (rows : List ChainRowC) (m : ChainRowC → ℚ) : ℚ :=
  if 0 < callSideSum rows m then putSideSum rows m / callSideSum rows m else 0

/-- Modelled from the spec (claim wording for `putCallRatio`): divide the
put-side sum by the call-side sum, with result 0 exactly when the call-side
sum is 0. -/
def specPutCallRatio (rows : List ChainRowC) (m : ChainRowC → ℚ) : ℚ :=
  if callSideSum rows m = 0 then 0 else putSideSum rows m / callSideSum rows m

/-- A chain table whose call side sums to a negative volume. -/
def pcExampleNeg : List ChainRowC := [⟨"Call", -1, 1⟩, ⟨"Put", 1, 1⟩]

/-- A chain table whose call side sums to a positive volume. -/
def pcExamplePos : List ChainRowC := [⟨"Call", 2, 1⟩, ⟨"Put", 1, 1⟩]

/-- C6 counterexample: on a cleaned table whose call-side volume sum is
`-1` (negative values survive cleaning), the claim's rule divides and gives
`-1`, but the code's `> 0` guard returns `0`. -/
theorem c6_counterexample :
    pc_ratio pcExampleNeg (fun r => r.volume)
      ≠ specPutCallRatio pcExampleNeg (fun r => r.volume) := by
  decide

/-- C6 (amended): `putCallRatio` returns the put-side sum divided by the
call-side sum when the call-side sum is strictly positive, and returns 0
whenever the call-side sum is 0 — or negative — rather than raising a
division error; on the zero-row table it returns 0. -/
theorem c6_theorem : ∀ (rows : List ChainRowC) (m : ChainRowC → ℚ),
    (callSideSum rows m = 0 → pc_ratio rows m = 0) ∧
    (callSideSum rows m < 0 → pc_ratio rows m = 0) ∧
    (0 < callSideSum rows m →
      pc_ratio rows m = putSideSum rows m / callSideSum rows m) ∧
    pc_ratio [] m = 0 := by
  intro rows m
  refine ⟨?_, ?_, ?_, ?_⟩
  · intro h
    unfold pc_ratio
    rw [if_neg]
    rw [h]
    exact lt_irrefl 0
  · intro h
    unfold pc_ratio
    rw [if_neg (asymm h)]
  · intro h
    unfold pc_ratio
    rw [if_pos h]
  · simp [pc_ratio, callSideSum]

/-- C6 witness: the zero-or-negative branch and the positive branch of the
amended theorem on concrete two-row tables. -/
theorem c6_witness :
    pc_ratio pcExampleNeg (fun r => r.volume) = 0 ∧
    pc_ratio pcExamplePos (fun r => r.volume)
      = putSideSum pcExamplePos (fun r => r.volume)
        / callSideSum pcExamplePos (fun r => r.volume) :=
  ⟨(c6_theorem pcExampleNeg (fun r => r.volume)).2.1 (by decide),
   (c6_theorem pcExamplePos (fun r => r.volume)).2.2.1 (by decide)⟩

/-! ## MetricsEngine: exposure by strike (dashboard.py lines 243–264) -/

/-- A cleaned greeks row as used by the exposure blocks. -/
structure GreekRowC where
  (vega theta strike openInt : ℚ)
deriving DecidableEq

/-- Per-row `(Strike, greek * OpenInt * 100)` pairs, the contract
multiplier included (dashboard.py lines 244 and 261). -/
def exposurePairs (rows : List GreekRowC) (greek : GreekRowC → ℚ) : List (ℚ × ℚ) :=
  rows.map (fun r => (r.strike, greek r * r.openInt * 100))

/-- The distinct strikes in ascending order: pandas `groupby('Strike')`
sorts its keys. -/
def strikeKeysSorted (rows : List GreekRowC) : List ℚ :=
  ((rows.map (fun r => r.strike)).dedup).insertionSort (· ≤ ·)

/-- `df.groupby('Strike')['… Exposure'].sum()` (dashboard.py lines 247 and
262): one `(strike, summed exposure)` pair per distinct strike, keys
ascending. -/
def exposureByStrike (rows : List GreekRowC) (greek : GreekRowC → ℚ) : List (ℚ × ℚ) :=
  (strikeKeysSorted rows).map
    (fun k =>
      (k, (((exposurePairs rows greek).filter (fun p => decide (p.1 = k))).map Prod.snd).sum))

/-- Summing per-key filtered sums over a duplicate-free key list that covers
every element recovers the total sum. -/
theorem sum_map_groups (keys : List ℚ) :
    ∀ xs : List (ℚ × ℚ), keys.Nodup → (∀ x ∈ xs, x.1 ∈ keys) →
      (keys.map (fun k => ((xs.filter (fun p => decide (p.1 = k))).map Prod.snd).sum)).sum
        = (xs.map Prod.snd).sum := by
  induction keys with
  | nil =>
    intro xs _ hcov
    cases xs with
    | nil => simp
    | cons a t => exact absurd (hcov a (List.mem_cons_self a t)) (List.not_mem_nil a.1)
  | cons k ks ih =>
    intro xs hnd hcov
    have hknotin : k ∉ ks := (List.nodup_cons.mp hnd).1
    have hndks : ks.Nodup := (List.nodup_cons.mp hnd).2
    have hperm := List.filter_append_perm (fun p => decide (p.1 = k)) xs
    have hsplit : (xs.map Prod.snd).sum
        = ((xs.filter (fun p => decide (p.1 = k))).map Prod.snd).sum
          + ((xs.filter (fun p => !decide (p.1 = k))).map Prod.snd).sum := by
      rw [← List.sum_append, ← List.map_append]
      exact ((hperm.map Prod.snd).sum_eq).symm
    have hres : ∀ k2 ∈ ks,
        xs.filter (fun p => decide (p.1 = k2))
          = (xs.filter (fun p => !decide (p.1 = k))).filter (fun p => decide (p.1 = k2)) := by
      intro k2 hk2
      have hne : k2 ≠ k := fun he => hknotin (he ▸ hk2)
      rw [List.filter_filter]
      apply List.filter_congr
      intro x _
      by_cases hx : x.1 = k2
      · simp [hx, hne]
      · simp [hx]
    have hcov2 : ∀ x ∈ xs.filter (fun p => !decide (p.1 = k)), x.1 ∈ ks := by
      intro x hx
      have hmem := List.mem_of_mem_filter hx
      have hpx := List.of_mem_filter hx
      have hxk : ¬ (x.1 = k) := by simpa using hpx
      rcases List.mem_cons.mp (hcov x hmem) with h | h
      · exact absurd h hxk
      · exact h
    have ih2 := ih (xs.filter (fun p => !decide (p.1 = k))) hndks hcov2
    have hmapeq :
        ks.map (fun k2 => ((xs.filter (fun p => decide (p.1 = k2))).map Prod.snd).sum)
          = ks.map (fun k2 =>
              (((xs.filter (fun p => !decide (p.1 = k))).filter
                  (fun p => decide (p.1 = k2))).map Prod.snd).sum) :=
      List.map_congr_left (fun k2 hk2 => by rw [hres k2 hk2])
    simp only [List.map_cons, List.sum_cons]
    rw [hmapeq, ih2, hsplit]

/-- C7: `exposureByStrike` (multiplier 100) yields pairs whose strikes are
sorted ascending and whose exposures total exactly
`sum(greek * OpenInterest * 100)` over all rows. -/
theorem c7_theorem : ∀ (rows : List GreekRowC) (greek : GreekRowC → ℚ),
    List.Sorted (· ≤ ·) ((exposureByStrike rows greek).map Prod.fst) ∧
    ((exposureByStrike rows greek).map Prod.snd).sum
      = (rows.map (fun r => greek r * r.openInt * 100)).sum := by
  intro rows greek
  constructor
  · have hfst : (exposureByStrike rows greek).map Prod.fst = strikeKeysSorted rows := by
      unfold exposureByStrike
      rw [List.map_map]
      exact List.map_id _
    rw [hfst]
    unfold strikeKeysSorted
    exact List.sorted_insertionSort _ _
  · have hsnd : (exposureByStrike rows greek).map Prod.snd
        = (strikeKeysSorted rows).map
            (fun k =>
              (((exposurePairs rows greek).filter (fun p => decide (p.1 = k))).map Prod.snd).sum) := by
      unfold exposureByStrike
      rw [List.map_map]
      rfl
    have hnd : (strikeKeysSorted rows).Nodup := by
      unfold strikeKeysSorted
      exact ((List.perm_insertionSort _ _).nodup_iff).mpr (List.nodup_dedup _)
    have hcov : ∀ x ∈ exposurePairs rows greek, x.1 ∈ strikeKeysSorted rows := by
      intro x hx
      unfold exposurePairs at hx
      obtain ⟨r, hr, rfl⟩ := List.mem_map.mp hx
      unfold strikeKeysSorted
      rw [List.Perm.mem_iff (List.perm_insertionSort _ _)]
      exact List.mem_dedup.mpr (List.mem_map_of_mem _ hr)
    rw [hsnd, sum_map_groups (strikeKeysSorted rows) (exposurePairs rows greek) hnd hcov]
    unfold exposurePairs
    rw [List.map_map]
    rfl

/-! ## MetricsEngine: highlighted trades (dashboard.py lines 392–404) -/

/-- A cleaned flow row as used by the metrics blocks: Premium, Volume,
Open Int, and the `Code` string column. -/
structure FlowMRow where
  (premium volume openInt : ℚ)
  (code : String)
deriving DecidableEq

/-- `Volume / (Open Int + 1)` — the `+ 1` zero-guard (dashboard.py line
394). -/
def volOiRatioOf (r : FlowMRow) : ℚ :=
  r.volume / (r.openInt + 1)

/-- `series.quantile(0.75)` with the default linear interpolation: sort
ascending, take position `h = 0.75 * (n - 1)`, return
`x[i] + (h - i) * (x[i+1] - x[i])` with `i = ⌊h⌋`.  Here `h = 3(n-1)/4` is
a nonnegative rational, so `i = 3(n-1) / 4` and `h - i = (3(n-1) mod 4)/4`
in natural-number arithmetic.  The empty series has no quantile (pandas
yields `NaN`; the source guards on a non-empty Premium column). -/
def quantile75 (xs : List ℚ) : Option ℚ :=
  match xs with
  | [] => none
  | _ =>
    let sorted := xs.insertionSort (· ≤ ·)
    let num3 : ℕ := 3 * (xs.length - 1)
    let i : ℕ := num3 / 4
    let g : ℚ := ((num3 % 4 : ℕ) : ℚ) / 4
    let lo := sorted.getD i 0
    let hi := sorted.getD (i + 1) lo
    some (lo + g * (hi - lo))

/-- Descending premium order on (row, ratio) pairs. -/
def descPremiumPair (a b : FlowMRow × ℚ) : Prop :=
  b.1.premium ≤ a.1.premium

instance : DecidableRel descPremiumPair :=
  fun a b => inferInstanceAs (Decidable (b.1.premium ≤ a.1.premium))

instance : IsTotal (FlowMRow × ℚ) descPremiumPair :=
  ⟨fun a b => le_total b.1.premium a.1.premium⟩

instance : IsTrans (FlowMRow × ℚ) descPremiumPair :=
  ⟨fun _ _ _ h1 h2 => le_trans h2 h1⟩

/-- The highlighted-trades block (dashboard.py lines 392–404): compute the
ratio column on a copy, take the 75th percentile of Premium, keep the rows
with `Premium >= p75` and `ratio >= 1.0`, and sort them by Premium
descending.  When the Premium column is empty the block is skipped and
nothing is highlighted. -/
def highlighted_trades (rows : List FlowMRow) : List (FlowMRow × ℚ) :=
  let withRatio := rows.map (fun r => (r, volOiRatioOf r))
  match quantile75 (rows.map (fun r => r.premium)) with
  | none => []
  | some q =>
    (withRatio.filter
        (fun p => decide (q ≤ p.1.premium) && decide ((1 : ℚ) ≤ p.2))).insertionSort
      descPremiumPair

/-- Flow rows realizing premiums `[100, 200, 300, 400, 500]` with
volume/(open interest + 1) ratios `[0.5, 1.2, 2.0, 0.9, 3.0]`. -/
def exRow1 : FlowMRow := ⟨100, 1, 1, ""⟩

def exRow2 : FlowMRow := ⟨200, 12 / 5, 1, ""⟩

def exRow3 : FlowMRow := ⟨300, 4, 1, ""⟩

def exRow4 : FlowMRow := ⟨400, 9 / 5, 1, ""⟩

def exRow5 : FlowMRow := ⟨500, 6, 1, ""⟩

/-- The five-row example flow table of the spec's end-to-end scenario. -/
def exampleFlow : List FlowMRow := [exRow1, exRow2, exRow3, exRow4, exRow5]

/-- C8: `highlighted_trades` of the empty table is empty; the output is
always sorted by premium descending; a pair is selected iff it is a table
row with its ratio attached, its premium reaches the 75th percentile and
its ratio reaches 1; and on the end-to-end example the percentile is 400
and exactly the premium-500 row (ratio 3) is returned. -/
theorem c8_theorem :
    highlighted_trades [] = [] ∧
    (∀ rows : List FlowMRow, List.Sorted descPremiumPair (highlighted_trades rows)) ∧
    (∀ (rows : List FlowMRow) (q : ℚ),
      quantile75 (rows.map (fun r => r.premium)) = some q →
      ∀ p : FlowMRow × ℚ,
        p ∈ highlighted_trades rows ↔
          (p.1 ∈ rows ∧ p.2 = volOiRatioOf p.1 ∧ q ≤ p.1.premium ∧ (1 : ℚ) ≤ p.2)) ∧
    quantile75 (exampleFlow.map (fun r => r.premium)) = some 400 ∧
    highlighted_trades exampleFlow = [(exRow5, 3)] := by
  refine ⟨rfl, ?_, ?_, by decide, by decide⟩
  · intro rows
    simp only [highlighted_trades]
    cases hq : quantile75 (rows.map (fun r => r.premium)) with
    | none => exact List.sorted_nil
    | some q => exact List.sorted_insertionSort _ _
  · intro rows q hq p
    simp only [highlighted_trades, hq]
    constructor
    · intro hp
      rw [List.Perm.mem_iff (List.perm_insertionSort _ _)] at hp
      rw [List.mem_filter] at hp
      obtain ⟨hmem, hcond⟩ := hp
      obtain ⟨r, hr, heq⟩ := List.mem_map.mp hmem
      subst heq
      simp only [Bool.and_eq_true, decide_eq_true_eq] at hcond
      exact ⟨hr, rfl, hcond.1, hcond.2⟩
    · rintro ⟨hmem, hratio, hq1, hq2⟩
      rw [List.Perm.mem_iff (List.perm_insertionSort _ _), List.mem_filter]
      constructor
      · rw [List.mem_map]
        refine ⟨p.1, hmem, ?_⟩
        rw [← hratio]
      · simp only [Bool.and_eq_true, decide_eq_true_eq]
        exact ⟨hq1, hq2⟩

/-- C8 witness: the membership characterization applied to the example
table at its computed percentile 400, placing the premium-500 row in the
output. -/
theorem c8_witness : (exRow5, (3 : ℚ)) ∈ highlighted_trades exampleFlow :=
  ((c8_theorem.2.2.1 exampleFlow 400 (by decide)) ((exRow5, (3 : ℚ)))).mpr (by decide)

/-! ## MetricsEngine state: which blocks write back into their table -/

/-- The greeks dataframe as the metrics blocks see it: its cleaned rows plus
whatever derived columns have been assigned into it. -/
structure GMetricsDF where
  (rows : List GreekRowC)
  (extra : List (String × List ℚ))
deriving DecidableEq

/-- `df[name] = vals`: overwrite the column if it exists, otherwise append
it. -/
def setColumn (df : GMetricsDF) (name : String) (vals : List ℚ) : GMetricsDF :=
  if (df.extra.map Prod.fst).contains name then
    { df with extra := df.extra.map (fun p => if p.1 = name then (name, vals) else p) }
  else
    { df with extra := df.extra ++ [(name, vals)] }

/-- The vega block (dashboard.py lines 243–247): assigns the
`'Vega Exposure'` column INTO `df_griegas` itself, then groups it by
strike. -/
def vegaExposureBlock (df : GMetricsDF) : List (ℚ × ℚ) × GMetricsDF :=
  (exposureByStrike df.rows (fun r => r.vega),
   setColumn df "Vega Exposure" (df.rows.map (fun r => r.vega * r.openInt * 100)))

/-- The theta block (dashboard.py lines 260–264): same shape as the vega
block, writing `'Theta Exposure'` into the table. -/
def thetaExposureBlock (df : GMetricsDF) : List (ℚ × ℚ) × GMetricsDF :=
  (exposureByStrike df.rows (fun r => r.theta),
   setColumn df "Theta Exposure" (df.rows.map (fun r => r.theta * r.openInt * 100)))

/-- The chain dataframe seen by the ratio block. -/
structure ChainDF where
  (rows : List ChainRowC)
deriving DecidableEq

/-- The put/call ratio block (dashboard.py lines 157–168): reads the table,
builds two scalars, writes nothing back. -/
def pcRatioBlock (df : ChainDF) : (ℚ × ℚ) × ChainDF :=
  ((pc_ratio df.rows (fun r => r.volume), pc_ratio df.rows (fun r => r.openInt)), df)

/-- The flow dataframe seen by the highlight and summary blocks. -/
structure FlowDF where
  (rows : List FlowMRow)
deriving DecidableEq

/-- The highlight block works on `df_inusual.copy()` (dashboard.py line
393), so the ratio column lands on the copy and the table is unchanged. -/
def highlightedBlock (df : FlowDF) : List (FlowMRow × ℚ) × FlowDF :=
  (highlighted_trades df.rows, df)

/-- Descending order on summed premiums. -/
def descSumPair (a b : String × ℚ) : Prop :=
  b.2 ≤ a.2

instance : DecidableRel descSumPair :=
  fun a b => inferInstanceAs (Decidable (b.2 ≤ a.2))

/-- `df.groupby('Code')['Premium'].sum().reset_index().sort_values(by=
'Premium', ascending=False)` (dashboard.py line 381): the groupedSum
operation, keys grouped then ordered by summed premium descending. -/
def groupedSumByCode (rows : List FlowMRow) : List (String × ℚ) :=
  let keys := ((rows.map (fun r => r.code)).dedup).insertionSort (fun a b => a ≤ b)
  (keys.map
      (fun k =>
        (k, ((rows.filter (fun r => decide (r.code = k))).map (fun r => r.premium)).sum))).insertionSort
    descSumPair

/-- The by-code premium summary block: a fresh value object, the table
unchanged. -/
def codeSummaryBlock (df : FlowDF) : List (String × ℚ) × FlowDF :=
  (groupedSumByCode df.rows, df)

/-- A one-row greeks table with no derived columns yet. -/
def gmExample : GMetricsDF := ⟨[⟨1, 2, 100, 3⟩], []⟩

/-- C10 counterexample: the vega block hands back a table that differs from
its input — the `'Vega Exposure'` column has been assigned into it — so the
exposure operation does mutate its CleanedTable. -/
theorem c10_counterexample : (vegaExposureBlock gmExample).2 ≠ gmExample := by
  decide

/-- C10 (amended): the put/call-ratio, highlighted-trades (which works on a
copy) and grouped-sum blocks leave their table unchanged, but the vega and
theta exposure blocks write a derived exposure column into the greeks table
in place; they change no existing column and no rows, and their grouped
output is the usual exposure-by-strike value. -/
theorem c10_theorem :
    (∀ df : ChainDF, (pcRatioBlock df).2 = df) ∧
    (∀ df : FlowDF, (highlightedBlock df).2 = df) ∧
    (∀ df : FlowDF, (codeSummaryBlock df).2 = df) ∧
    (∀ df : GMetricsDF,
      (vegaExposureBlock df).2
          = setColumn df "Vega Exposure" (df.rows.map (fun r => r.vega * r.openInt * 100)) ∧
      ((vegaExposureBlock df).2).rows = df.rows ∧
      (vegaExposureBlock df).1 = exposureByStrike df.rows (fun r => r.vega)) ∧
    (∀ df : GMetricsDF,
      (thetaExposureBlock df).2
          = setColumn df "Theta Exposure" (df.rows.map (fun r => r.theta * r.openInt * 100)) ∧
      ((thetaExposureBlock df).2).rows = df.rows ∧
      (thetaExposureBlock df).1 = exposureByStrike df.rows (fun r => r.theta)) := by
  have hrows : ∀ (df : GMetricsDF) (n : String) (v : List ℚ),
      (setColumn df n v).rows = df.rows := by
    intro df n v
    unfold setColumn
    split <;> rfl
  refine ⟨fun df => rfl, fun df => rfl, fun df => rfl, fun df => ⟨rfl, hrows df _ _, rfl⟩,
    fun df => ⟨rfl, hrows df _ _, rfl⟩⟩

end Dashboard
